import Mathlib

/-!
Verification of the libdebug native tracer core (ptrace_cffi_source.c).

This file shallowly embeds the x86_64 (ARCH_AMD64) build of the tracer.
Tracee code memory is a map from addresses to 64-bit machine words; a
PTRACE_POKEDATA at an address replaces the word stored at that address.
Kernel interactions whose results the C code observes (waitpid statuses,
PTRACE_GETREGS contents and success, PTRACE_SINGLESTEP success) are drawn
from oracle streams carried in the world state, so that every terminating
execution of the C code corresponds to one choice of oracles.  Every kernel
request the code issues is also recorded in an event log, which lets us
state that an operation does or does not issue a given request.

Loops of the C source that are not structurally bounded (the stepping loops
and the WNOHANG drain) are given explicit fuel; exhausting the fuel yields
the result `none`, which corresponds to a C execution that has not yet
returned.  Theorems about return values therefore quantify over all fuels.
-/

/-- A 64-bit machine word (tracked as a natural number; the tracer only
moves words around, it never does arithmetic that could overflow). -/
abbrev Word := Nat

/-- Cached general-purpose registers of a thread (struct ptrace_regs_struct):
the instruction pointer, plus one abstract field summarizing all remaining
registers, which the tracer core copies around but never inspects. -/
structure Regs where
  ip : Word
  rest : Nat
deriving DecidableEq

/-- A live-thread entry (struct thread).  The floating-point block is not
modelled: no operation embedded here reads or writes it. -/
structure Thread where
  tid : Nat
  regs : Regs
  signal_to_forward : Nat
deriving DecidableEq

/-- A software-breakpoint entry (struct software_breakpoint). -/
structure SwBp where
  addr : Word
  instruction : Word
  patched_instruction : Word
  enabled : Bool
deriving DecidableEq

/-- A hardware-breakpoint entry (struct hardware_breakpoint); `ty0`/`ty1`
are the two bytes of the C `char type[2]` field. -/
structure HwBp where
  addr : Word
  tid : Nat
  enabled : Bool
  ty0 : Char
  ty1 : Char
  len : Nat
deriving DecidableEq

/-- The x86_64 per-thread debug registers reachable through PTRACE_PEEKUSER
and PTRACE_POKEUSER at offsets DR_BASE + i * DR_SIZE: the four address
registers DR0..DR3 and the control register DR7. -/
structure DebugRegs where
  dr0 : Word
  dr1 : Word
  dr2 : Word
  dr3 : Word
  dr7 : Word
deriving DecidableEq

/-- One kernel request issued by the tracer, as recorded in the event log. -/
inductive Event where
  | singleStepE (tid : Nat)
  | waitE
  | getregsE (tid : Nat)
  | setregsE (tid : Nat)
  | pokeDataE (addr : Word) (val : Word)
  | peekDataE (addr : Word)
  | tgkillE (tid : Nat)
  | contE (tid : Nat) (sig : Nat)
deriving DecidableEq

/-- The embedded world: the tracer's own global_state (live thread list,
breakpoint lists, syscall-handling flag), the tracee-side state it drives
through ptrace (code memory, per-thread debug registers), the oracle
streams supplying kernel responses, and the event log. -/
structure World where
  t_HEAD : List Thread
  sw_b_HEAD : List SwBp
  hw_b_HEAD : List HwBp
  handle_syscall_enabled : Bool
  mem : Word → Word
  dregs : Nat → DebugRegs
  stepResults : Nat → Bool
  stepIdx : Nat
  waitResults : Nat → Int × Nat
  waitIdx : Nat
  regOk : Nat → Bool
  regResults : Nat → Regs
  regIdx : Nat
  log : List Event

/-- Modelled from the spec: the architecture macro INSTRUCTION_POINTER,
which projects the instruction pointer out of a cached register block
(the macro lives in a generated per-architecture header that is not part
of the provided sources). -/
def INSTRUCTION_POINTER (r : Regs) : Word := r.ip

/-- Modelled from the spec: the x86_64 INSTALL_BREAKPOINT macro, which
overlays the trap encoding (int3, 0xCC) onto the low byte of a machine
word, preserving the remaining bytes (the macro lives in a generated
per-architecture header that is not part of the provided sources). -/
def INSTALL_BREAKPOINT (w : Word) : Word := w - w % 256 + 0xCC

/-- Modelled from the spec: the x86_64 IS_SW_BREAKPOINT macro, testing a
byte against the trap opcode (from the missing per-architecture header). -/
def IS_SW_BREAKPOINT (b : Word) : Bool := b == 0xCC

/-- Modelled from the spec: the x86_64 IS_RET_INSTRUCTION macro, testing
the low byte at the instruction pointer for a return encoding (from the
missing per-architecture header). -/
def IS_RET_INSTRUCTION (b : Word) : Bool := b == 0xC3

/-- Modelled from the spec: the x86_64 IS_CALL_INSTRUCTION macro, testing
the opcode window at the instruction pointer for a call encoding (from the
missing per-architecture header). -/
def IS_CALL_INSTRUCTION (w : Word) : Bool := w % 256 == 0xE8

/-- PTRACE_POKEDATA: replace the word stored at an address and log it. -/
def pokedata (w : World) (addr : Word) (v : Word) : World :=
  { w with mem := fun a => if a = addr then v else w.mem a,
           log := w.log ++ [Event.pokeDataE addr v] }

/-- PTRACE_PEEKDATA: read the word stored at an address and log it. -/
def peekdata (w : World) (addr : Word) : World × Word :=
  ({ w with log := w.log ++ [Event.peekDataE addr] }, w.mem addr)

/-- PTRACE_SINGLESTEP: log the request, consume the next single-step
oracle entry, and report whether the request succeeded. -/
def doStep (w : World) (tid : Nat) : World × Bool :=
  ({ w with stepIdx := w.stepIdx + 1,
            log := w.log ++ [Event.singleStepE tid] },
   w.stepResults w.stepIdx)

/-- waitpid: log the wait, consume the next wait oracle entry, and return
the reported pid (or -1) together with the raw status word. -/
def doWait (w : World) : World × Int × Nat :=
  ({ w with waitIdx := w.waitIdx + 1, log := w.log ++ [Event.waitE] },
   w.waitResults w.waitIdx)

/-- getregs (PTRACE_GETREGS): log the request, consume the next register
oracle entry, and return success together with the registers read. -/
def doGetregs (w : World) (tid : Nat) : World × Bool × Regs :=
  ({ w with regIdx := w.regIdx + 1, log := w.log ++ [Event.getregsE tid] },
   w.regOk w.regIdx, w.regResults w.regIdx)

/-- tgkill(pid, tid, SIGSTOP): log the request (the stop is then observed
through the wait oracle, like any other stop). -/
def doTgkill (w : World) (tid : Nat) : World :=
  { w with log := w.log ++ [Event.tgkillE tid] }

/-- Overwrite (in place) the cached registers of the first live-list entry
with the given tid, the way getregs(tid, &t->regs) writes through the
pointer into the matching node. -/
def updateFirstRegs : List Thread → Nat → Regs → List Thread
  | [], _, _ => []
  | t :: ts, tid, r =>
      if t.tid = tid then { t with regs := r } :: ts
      else t :: updateFirstRegs ts tid r

/-- get_thread: linear lookup of a tid in the live list. -/
def get_thread (ts : List Thread) (tid : Nat) : Option Thread :=
  ts.find? (fun t => t.tid == tid)

/-- The cached instruction pointer of the live thread with the given tid
(0 when the thread is not registered; only read behind a presence check). -/
def currentIp (w : World) (tid : Nat) : Word :=
  match get_thread w.t_HEAD tid with
  | some t => INSTRUCTION_POINTER t.regs
  | none => 0

/-- register_thread: if the tid is already live return its cached register
block; otherwise allocate an entry with signal_to_forward 0, read the
registers from the kernel into it, and link it at the head of the live
list.  (The fpregs tag assignment of the C code touches only the
unmodelled floating-point block.) -/
def register_thread (w : World) (tid : Nat) : World × Regs :=
  match get_thread w.t_HEAD tid with
  | some t => (w, t.regs)
  | none =>
      match doGetregs w tid with
      | (w1, _, r) =>
          ({ w1 with t_HEAD := { tid := tid, regs := r, signal_to_forward := 0 } :: w1.t_HEAD }, r)

/-- The flush loop shared by every resume path: setregs for every live
thread (failures are only logged by the C code, so the flush has no
observable effect beyond the requests themselves). -/
def flushRegs (w : World) : World :=
  { w with log := w.log ++ w.t_HEAD.map (fun t => Event.setregsE t.tid) }

/-- Set the enabled flag of the first software-breakpoint entry with the
given address, the way the existing-entry branch of register_breakpoint
writes through the list pointer and returns. -/
def enableFirst : List SwBp → Word → List SwBp
  | [], _ => []
  | b :: bs, a =>
      if b.addr = a then { b with enabled := true } :: bs
      else b :: enableFirst bs a

/-- The inner walk of register_breakpoint's sorted insertion: prev has
already been fixed, the new entry is placed before the first node whose
address is not below it. -/
def insertTail (b : SwBp) : List SwBp → List SwBp
  | [] => [b]
  | n :: rest =>
      if n.addr < b.addr then n :: insertTail b rest
      else b :: n :: rest

/-- The sorted insertion of register_breakpoint: prepend when the list is
empty or its head is above the new address, otherwise keep the head and
walk the tail. -/
def insertSorted (b : SwBp) (l : List SwBp) : List SwBp :=
  match l with
  | [] => [b]
  | h :: t =>
      if h.addr > b.addr then b :: h :: t
      else h :: insertTail b t

/-- register_breakpoint: peek the current word, overlay the trap, poke the
patched word back, then either re-enable an existing entry for the address
or insert a fresh enabled entry in address order. -/
def register_breakpoint (w : World) (pid : Nat) (address : Word) : World :=
  match peekdata w address with
  | (w1, instruction) =>
      let patched_instruction := INSTALL_BREAKPOINT instruction
      let w2 := pokedata w1 address patched_instruction
      if w2.sw_b_HEAD.any (fun b => b.addr == address) then
        { w2 with sw_b_HEAD := enableFirst w2.sw_b_HEAD address }
      else
        let b : SwBp := { addr := address, instruction := instruction,
                          patched_instruction := patched_instruction, enabled := true }
        { w2 with sw_b_HEAD := insertSorted b w2.sw_b_HEAD }

/-- Unlink (and free) the first software-breakpoint entry with the given
address. -/
def removeFirstBp : List SwBp → Word → List SwBp
  | [], _ => []
  | b :: bs, a => if b.addr = a then bs else b :: removeFirstBp bs a

/-- unregister_breakpoint: unlink and free the matching entry; the tracee
is not touched. -/
def unregister_breakpoint (w : World) (address : Word) : World :=
  { w with sw_b_HEAD := removeFirstBp w.sw_b_HEAD address }

/-- enable_breakpoint: set the enabled flag on every entry with the given
address (the C loop has no early exit). -/
def enable_breakpoint (w : World) (address : Word) : World :=
  { w with sw_b_HEAD :=
      w.sw_b_HEAD.map (fun b => if b.addr = address then { b with enabled := true } else b) }

/-- disable_breakpoint: clear the enabled flag on every entry with the
given address. -/
def disable_breakpoint (w : World) (address : Word) : World :=
  { w with sw_b_HEAD :=
      w.sw_b_HEAD.map (fun b => if b.addr = address then { b with enabled := false } else b) }

/-- CTRL_LOCAL macro: the local-enable bit for debug-register slot x. -/
def CTRL_LOCAL (x : Nat) : Nat := 1 <<< (2 * x)

/-- CTRL_COND macro: the DR7 bit position of slot x's condition field. -/
def CTRL_COND (x : Nat) : Nat := 16 + 4 * x

/-- CTRL_COND_VAL macro: condition encoding from the type byte. -/
def CTRL_COND_VAL (c : Char) : Nat :=
  if c = 'x' then 0 else if c = 'w' then 1 else 3

/-- CTRL_LEN macro: the DR7 bit position of slot x's length field. -/
def CTRL_LEN (x : Nat) : Nat := 18 + 4 * x

/-- CTRL_LEN_VAL macro: length encoding from the byte length. -/
def CTRL_LEN_VAL (l : Nat) : Nat :=
  if l = 1 then 0 else if l = 2 then 1 else if l = 8 then 2 else 3

/-- The 64-bit complement of a mask (the C code ANDs an unsigned long with
the sign-extended complement of a small int mask). -/
def not64 (m : Nat) : Nat := (2 ^ 64 - 1) - m

/-- Read debug-register slot i (the PTRACE_PEEKUSER at DR_BASE + i*DR_SIZE). -/
def drGet (d : DebugRegs) (i : Nat) : Word :=
  if i = 0 then d.dr0 else if i = 1 then d.dr1 else if i = 2 then d.dr2 else d.dr3

/-- Write debug-register slot i (the PTRACE_POKEUSER at DR_BASE + i*DR_SIZE). -/
def drSet (d : DebugRegs) (i : Nat) (v : Word) : DebugRegs :=
  if i = 0 then { d with dr0 := v }
  else if i = 1 then { d with dr1 := v }
  else if i = 2 then { d with dr2 := v }
  else { d with dr3 := v }

/-- The slot-scan of install_hardware_breakpoint: the first of DR0..DR3
holding a zero address, if any. -/
def freeSlotIdx (d : DebugRegs) : Option Nat :=
  if d.dr0 = 0 then some 0
  else if d.dr1 = 0 then some 1
  else if d.dr2 = 0 then some 2
  else if d.dr3 = 0 then some 3
  else none

/-- install_hardware_breakpoint (x86_64): scan DR0..DR3 for a free slot;
with none available report the exhaustion and return without writing; with
slot i free, clear slot i's condition and length fields in DR7, OR in the
new control bits, and write the address into DRi and the state into DR7. -/
def install_hardware_breakpoint (w : World) (bp : HwBp) : World :=
  let d := w.dregs bp.tid
  match freeSlotIdx d with
  | none => w
  | some i =>
      let ctrl := CTRL_LOCAL i ||| (CTRL_COND_VAL bp.ty0 <<< CTRL_COND i)
                    ||| (CTRL_LEN_VAL bp.len <<< CTRL_LEN i)
      let st := ((d.dr7 &&& not64 (3 <<< CTRL_COND i)) &&& not64 (3 <<< CTRL_LEN i)) ||| ctrl
      let d2 := { (drSet d i bp.addr) with dr7 := st }
      { w with dregs := fun t => if t = bp.tid then d2 else w.dregs t }

/-- register_hw_breakpoint: reject a duplicate (addr, tid) pair; otherwise
allocate the entry enabled, prepend it to the list, and install it. -/
def register_hw_breakpoint (w : World) (tid : Nat) (address : Word)
    (ty0 ty1 : Char) (len : Nat) : World :=
  if w.hw_b_HEAD.any (fun b => b.addr == address && b.tid == tid) then w
  else
    let b : HwBp := { addr := address, tid := tid, enabled := true,
                      ty0 := ty0, ty1 := ty1, len := len }
    install_hardware_breakpoint { w with hw_b_HEAD := b :: w.hw_b_HEAD } b

/-- One pass over the software-breakpoint list poking f b at every enabled
entry's address: the shape of the re-patch loop of prepare_for_run (f
projecting patched_instruction) and of the restore loops of
wait_all_and_update_regs and stepping_finish (f projecting instruction). -/
def pokeEnabledList (f : SwBp → Word) : List SwBp → World → World
  | [], w => w
  | b :: bs, w =>
      pokeEnabledList f bs (if b.enabled then pokedata w b.addr (f b) else w)

/-- The final loop of prepare_for_run: write patched_instruction at every
enabled software breakpoint. -/
def repatchSw (w : World) : World :=
  pokeEnabledList (fun b => b.patched_instruction) w.sw_b_HEAD w

/-- The restore loop of wait_all_and_update_regs and the cleanup loop of
stepping_finish: write the original instruction at every enabled software
breakpoint. -/
def restoreSw (w : World) : World :=
  pokeEnabledList (fun b => b.instruction) w.sw_b_HEAD w

/-- The step-over loop of prepare_for_run: for each live thread, t_hit is
set when any software-breakpoint entry's address equals the thread's
cached instruction pointer; a hit thread is single-stepped and waited on,
with one extra step-and-wait when the status is the literal 4991
(stopped-by-SIGSTOP).  A failing single-step aborts the whole function
with -1 (returned here as none); otherwise the last wait status is
carried. -/
def stepOverSw (w : World) (ts : List Thread) (status : Nat) : World × Option Nat :=
  match ts with
  | [] => (w, some status)
  | t :: rest =>
      if w.sw_b_HEAD.any (fun b => b.addr == INSTRUCTION_POINTER t.regs) then
        match doStep w t.tid with
        | (w1, ok) =>
          if ok then
            match doWait w1 with
            | (w2, _, st) =>
              if st = 4991 then
                match doStep w2 t.tid with
                | (w3, _) =>
                  match doWait w3 with
                  | (w4, _, st2) => stepOverSw w4 rest st2
              else stepOverSw w2 rest st
          else (w1, none)
      else stepOverSw w rest status

/-- prepare_for_run: flush every live thread's cached registers, step every
thread sitting on a software-breakpoint address over it, then write the
patched word at every enabled software breakpoint.  Returns -1 when a
single-step request fails, the last wait status otherwise. -/
def prepare_for_run (w : World) (pid : Nat) : World × Int :=
  match stepOverSw (flushRegs w) (flushRegs w).t_HEAD 0 with
  | (w1, none) => (w1, -1)
  | (w1, some st) => (repatchSw w1, (st : Int))

/-- The resume loop of cont_all_and_set_bps: continue every live thread
with its pending signal (PTRACE_SYSCALL or PTRACE_CONT; failures are only
logged) and clear every signal_to_forward. -/
def contAll (w : World) : World :=
  { w with
    t_HEAD := w.t_HEAD.map (fun t => { t with signal_to_forward := 0 }),
    log := w.log ++ w.t_HEAD.map (fun t => Event.contE t.tid t.signal_to_forward) }

/-- cont_all_and_set_bps: prepare_for_run, then resume all threads; the
status of prepare_for_run is passed through unchecked. -/
def cont_all_and_set_bps (w : World) (pid : Nat) : World × Int :=
  match prepare_for_run w pid with
  | (w1, status) => (contAll w1, status)

/-- The stepping loop of step_until, with fuel: while the bound allows,
single-step (failure returns -1), wait, refresh the target thread's
registers, and compare the new instruction pointer against the target
(success) and against its previous value (hardware-breakpoint retry that
does not consume the bound). -/
def suLoop (fuel : Nat) (w : World) (tid : Nat) (addr : Word)
    (maxSteps : Int) (count : Int) : World × Option Int :=
  match fuel with
  | 0 => (w, none)
  | f + 1 =>
      if maxSteps = -1 ∨ count < maxSteps then
        match doStep w tid with
        | (w1, ok) =>
          if ok then
            match doWait w1 with
            | (w2, _, _) =>
              let prev := currentIp w2 tid
              match doGetregs w2 tid with
              | (w3, gok, r) =>
                let w4 := if gok then { w3 with t_HEAD := updateFirstRegs w3.t_HEAD tid r } else w3
                let cur := currentIp w4 tid
                if cur = addr then (w4, some 0)
                else if cur = prev then suLoop f w4 tid addr maxSteps count
                else suLoop f w4 tid addr maxSteps (count + 1)
          else (w1, some (-1))
      else (w, some 0)

/-- step_until: flush every thread's registers, fail with -1 when the tid
is not registered, then run the bounded stepping loop (returning 0 when it
exits, whether by reaching the target or by exhausting the bound). -/
def step_until (w : World) (tid : Nat) (addr : Word) (maxSteps : Int)
    (fuel : Nat) : World × Option Int :=
  let w1 := flushRegs w
  match get_thread w1.t_HEAD tid with
  | none => (w1, some (-1))
  | some _ => suLoop fuel w1 tid addr maxSteps 0

/-- How the do-while loop of stepping_finish exited. -/
inductive SfExit where
  | stepErr
  | bpAbort
  | callDone
  | fuelOut
deriving DecidableEq

/-- The do-while loop of stepping_finish, with fuel: single-step (failure
exits with stepErr), wait, refresh the stepping thread's registers, peek
the opcode window at the new instruction pointer; an unchanged instruction
pointer or a trap opcode exits to cleanup (bpAbort); calls and returns
move the nested-call counter, and the loop exits normally (callDone) when
it reaches zero. -/
def sfLoop (fuel : Nat) (w : World) (tid : Nat) (nested : Int) : World × SfExit :=
  match fuel with
  | 0 => (w, SfExit.fuelOut)
  | f + 1 =>
      match doStep w tid with
      | (w1, ok) =>
        if ok then
          match doWait w1 with
          | (w2, _, _) =>
            let previous_ip := currentIp w2 tid
            match doGetregs w2 tid with
            | (w3, gok, r) =>
              let w4 := if gok then { w3 with t_HEAD := updateFirstRegs w3.t_HEAD tid r } else w3
              let current_ip := currentIp w4 tid
              match peekdata w4 current_ip with
              | (w5, opcode_window) =>
                let first_opcode_byte := opcode_window % 256
                if current_ip = previous_ip ∨ IS_SW_BREAKPOINT first_opcode_byte then
                  (w5, SfExit.bpAbort)
                else
                  let nested2 :=
                    if IS_CALL_INSTRUCTION opcode_window then nested + 1
                    else if IS_RET_INSTRUCTION first_opcode_byte then nested - 1
                    else nested
                  if nested2 > 0 then sfLoop f w5 tid nested2
                  else (w5, SfExit.callDone)
        else (w1, SfExit.stepErr)

/-- stepping_finish: prepare_for_run (status unchecked), find the stepping
thread (-1 without cleanup when absent), run the nested-call loop seeded
at 1; on normal exit take the final step over the return (failure -1
without cleanup), then restore the original word at every enabled software
breakpoint and return 0.  The bpAbort exit also runs the restore before
returning 0; the in-loop failure exit returns -1 without it. -/
def stepping_finish (w : World) (tid : Nat) (fuel : Nat) : World × Option Int :=
  match prepare_for_run w tid with
  | (w1, _) =>
    match get_thread w1.t_HEAD tid with
    | none => (w1, some (-1))
    | some _ =>
      match sfLoop fuel w1 tid 1 with
      | (w2, SfExit.stepErr) => (w2, some (-1))
      | (w2, SfExit.fuelOut) => (w2, none)
      | (w2, SfExit.bpAbort) => (restoreSw w2, some 0)
      | (w2, SfExit.callDone) =>
        match doStep w2 tid with
        | (w3, ok) =>
          if ok then
            match doWait w3 with
            | (w4, _, _) =>
              match doGetregs w4 tid with
              | (w5, gok, r) =>
                let w6 := if gok then { w5 with t_HEAD := updateFirstRegs w5.t_HEAD tid r } else w5
                (restoreSw w6, some 0)
          else (w3, some (-1))

/-- The quiesce loop of wait_all_and_update_regs: every live thread other
than the primary is probed with getregs (success refreshes its cache and
proves it already stopped); on failure it is stopped with tgkill(SIGSTOP),
waited on, and its status pushed onto the result list. -/
def stopOthers (w : World) (ts : List Thread) (headTid : Int)
    (acc : List (Int × Nat)) : World × List (Int × Nat) :=
  match ts with
  | [] => (w, acc)
  | t :: rest =>
      if (t.tid : Int) = headTid then stopOthers w rest headTid acc
      else
        match doGetregs w t.tid with
        | (w1, ok, r) =>
          if ok then
            stopOthers { w1 with t_HEAD := updateFirstRegs w1.t_HEAD t.tid r } rest headTid acc
          else
            match doWait (doTgkill w1 t.tid) with
            | (w2, rtid, rstatus) => stopOthers w2 rest headTid ((rtid, rstatus) :: acc)

/-- The WNOHANG drain of wait_all_and_update_regs, with fuel: keep polling
while the kernel reports a positive pid, pushing each status. -/
def drainLoop (fuel : Nat) (w : World) (acc : List (Int × Nat)) :
    World × List (Int × Nat) :=
  match fuel with
  | 0 => (w, acc)
  | f + 1 =>
      match doWait w with
      | (w1, rtid, rstatus) =>
        if rtid > 0 then drainLoop f w1 ((rtid, rstatus) :: acc) else (w1, acc)

/-- The register refresh of wait_all_and_update_regs: getregs on every live
thread (a failed read leaves the cache untouched, as PTRACE_GETREGS does
not write on failure). -/
def refreshAll (w : World) (ts : List Thread) : World :=
  match ts with
  | [] => w
  | t :: rest =>
      match doGetregs w t.tid with
      | (w1, ok, r) =>
        refreshAll (if ok then { w1 with t_HEAD := updateFirstRegs w1.t_HEAD t.tid r } else w1) rest

/-- wait_all_and_update_regs: block for one status (a -1 return frees the
list head and returns NULL immediately), quiesce every other thread, drain
further pending statuses, refresh every thread's cached registers, and
restore the original word at every enabled software breakpoint. -/
def wait_all_and_update_regs (w : World) (pid : Nat) (fuel : Nat) :
    World × Option (List (Int × Nat)) :=
  match doWait w with
  | (w1, rtid, rstatus) =>
    if rtid = -1 then (w1, none)
    else
      match stopOthers w1 w1.t_HEAD rtid [(rtid, rstatus)] with
      | (w2, acc) =>
        match drainLoop fuel w2 acc with
        | (w3, acc2) =>
          (restoreSw (refreshAll w3 w3.t_HEAD), some acc2)

/-- The software-breakpoint list sorted strictly ascending by address. -/
def SortedBpList (l : List SwBp) : Prop :=
  l.Pairwise (fun a b => a.addr < b.addr)

/-- One caller-visible software-breakpoint table operation. -/
inductive BpOp where
  | reg (pid : Nat) (addr : Word)
  | unreg (addr : Word)
  | en (addr : Word)
  | dis (addr : Word)

/-- Apply one software-breakpoint table operation to the world. -/
def applyBpOp (w : World) (op : BpOp) : World :=
  match op with
  | BpOp.reg pid addr => register_breakpoint w pid addr
  | BpOp.unreg addr => unregister_breakpoint w addr
  | BpOp.en addr => enable_breakpoint w addr
  | BpOp.dis addr => disable_breakpoint w addr

/-- The number of single-step requests recorded in a log. -/
def numSteps (l : List Event) : Nat :=
  l.countP (fun e => match e with | Event.singleStepE _ => true | _ => false)

/-- A concrete base world used by the witness and counterexample theorems:
empty tables, zeroed memory and debug registers, and benign oracles (every
single-step succeeds, every wait reports pid 1 with status 0, every
register read succeeds with zeroed registers). -/
def baseWorld : World :=
  { t_HEAD := [], sw_b_HEAD := [], hw_b_HEAD := [], handle_syscall_enabled := false,
    mem := fun _ => 0,
    dregs := fun _ => { dr0 := 0, dr1 := 0, dr2 := 0, dr3 := 0, dr7 := 0 },
    stepResults := fun _ => true, stepIdx := 0,
    waitResults := fun _ => (1, 0), waitIdx := 0,
    regOk := fun _ => true, regResults := fun _ => { ip := 0, rest := 0 }, regIdx := 0,
    log := [] }


lemma mem_insertTail (b x : SwBp) (l : List SwBp) :
    x ∈ insertTail b l ↔ x = b ∨ x ∈ l := by
  induction l with
  | nil => simp [insertTail]
  | cons n rest ih =>
      simp only [insertTail]
      split
      · rw [List.mem_cons, ih, List.mem_cons]
        tauto
      · simp only [List.mem_cons]

lemma sortedBp_insertTail (b : SwBp) (l : List SwBp)
    (hs : SortedBpList l) (hne : ∀ x ∈ l, x.addr ≠ b.addr) :
    SortedBpList (insertTail b l) := by
  induction l with
  | nil => simp [insertTail, SortedBpList]
  | cons n rest ih =>
      unfold SortedBpList at hs
      rw [List.pairwise_cons] at hs
      obtain ⟨hn, hrest⟩ := hs
      simp only [insertTail]
      split
      · rename_i hlt
        unfold SortedBpList
        rw [List.pairwise_cons]
        refine ⟨?_, ?_⟩
        · intro x hx
          rcases (mem_insertTail b x rest).1 hx with hxb | hxr
          · subst hxb; exact hlt
          · exact hn x hxr
        · exact ih hrest (fun x hx => hne x (List.mem_cons_of_mem n hx))
      · rename_i hge
        have h2 : n.addr ≠ b.addr := hne n (List.mem_cons_self n rest)
        have hbn : b.addr < n.addr := lt_of_le_of_ne (Nat.le_of_not_lt hge) (Ne.symm h2)
        unfold SortedBpList
        rw [List.pairwise_cons]
        refine ⟨?_, ?_⟩
        · intro x hx
          rcases List.mem_cons.1 hx with hxn | hxr
          · subst hxn; exact hbn
          · exact lt_trans hbn (hn x hxr)
        · exact List.pairwise_cons.2 ⟨hn, hrest⟩

lemma sortedBp_insertSorted (b : SwBp) (l : List SwBp)
    (hs : SortedBpList l) (hne : ∀ x ∈ l, x.addr ≠ b.addr) :
    SortedBpList (insertSorted b l) := by
  match l with
  | [] => simp [insertSorted, SortedBpList]
  | h :: t =>
      unfold SortedBpList at hs
      rw [List.pairwise_cons] at hs
      obtain ⟨hh, ht⟩ := hs
      simp only [insertSorted]
      split
      · rename_i hgt
        unfold SortedBpList
        rw [List.pairwise_cons]
        refine ⟨?_, ?_⟩
        · intro x hx
          rcases List.mem_cons.1 hx with hxh | hxt
          · subst hxh; exact hgt
          · exact lt_trans hgt (hh x hxt)
        · exact List.pairwise_cons.2 ⟨hh, ht⟩
      · rename_i hle
        have h2 : h.addr ≠ b.addr := hne h (List.mem_cons_self h t)
        have hhb : h.addr < b.addr := lt_of_le_of_ne (Nat.le_of_not_lt hle) h2
        unfold SortedBpList
        rw [List.pairwise_cons]
        refine ⟨?_, ?_⟩
        · intro x hx
          rcases (mem_insertTail b x t).1 hx with hxb | hxt
          · subst hxb; exact hhb
          · exact hh x hxt
        · exact sortedBp_insertTail b t ht (fun x hx => hne x (List.mem_cons_of_mem h hx))

lemma enableFirst_map_addr (l : List SwBp) (a : Word) :
    (enableFirst l a).map SwBp.addr = l.map SwBp.addr := by
  induction l with
  | nil => rfl
  | cons b bs ih =>
      simp only [enableFirst]
      split
      · simp
      · simp [ih]

lemma enableFirst_fields (l : List SwBp) (a : Word) :
    (enableFirst l a).map (fun b => (b.addr, b.instruction, b.patched_instruction)) =
      l.map (fun b => (b.addr, b.instruction, b.patched_instruction)) := by
  induction l with
  | nil => rfl
  | cons b bs ih =>
      simp only [enableFirst]
      split
      · simp
      · simp [ih]

lemma sortedBp_map_iff (l : List SwBp) :
    SortedBpList l ↔ (l.map SwBp.addr).Pairwise (· < ·) := by
  unfold SortedBpList
  rw [List.pairwise_map]

lemma removeFirstBp_sublist (l : List SwBp) (a : Word) :
    List.Sublist (removeFirstBp l a) l := by
  induction l with
  | nil => simp [removeFirstBp]
  | cons b bs ih =>
      simp only [removeFirstBp]
      split
      · exact List.sublist_cons_self b bs
      · exact ih.cons₂ b

lemma sortedBp_removeFirst (l : List SwBp) (a : Word)
    (hs : SortedBpList l) : SortedBpList (removeFirstBp l a) := by
  unfold SortedBpList at hs ⊢
  exact List.Pairwise.sublist (removeFirstBp_sublist l a) hs

lemma toggle_map_addr (l : List SwBp) (a : Word) (e : Bool) :
    ((l.map fun b => if b.addr = a then { b with enabled := e } else b).map SwBp.addr) =
      l.map SwBp.addr := by
  induction l with
  | nil => rfl
  | cons b bs ih =>
      simp only [List.map_cons, ih]
      split
      · simp
      · simp

lemma sortedBp_register_breakpoint (w : World) (pid : Nat) (a : Word)
    (hs : SortedBpList w.sw_b_HEAD) :
    SortedBpList (register_breakpoint w pid a).sw_b_HEAD := by
  rw [register_breakpoint]
  simp only [peekdata, pokedata]
  split
  · rename_i hany
    rw [sortedBp_map_iff, enableFirst_map_addr, ← sortedBp_map_iff]
    exact hs
  · rename_i hany
    have hne : ∀ x ∈ w.sw_b_HEAD, x.addr ≠ a := by
      intro x hx hxa
      apply hany
      rw [List.any_eq_true]
      exact ⟨x, hx, by simp [hxa]⟩
    exact sortedBp_insertSorted _ w.sw_b_HEAD hs (fun x hx => hne x hx)

lemma sortedBp_applyBpOp (w : World) (op : BpOp)
    (hs : SortedBpList w.sw_b_HEAD) :
    SortedBpList (applyBpOp w op).sw_b_HEAD := by
  cases op with
  | reg pid a => exact sortedBp_register_breakpoint w pid a hs
  | unreg a => exact sortedBp_removeFirst w.sw_b_HEAD a hs
  | en a =>
      rw [sortedBp_map_iff]
      show ((w.sw_b_HEAD.map _).map SwBp.addr).Pairwise (· < ·)
      rw [toggle_map_addr]
      rw [← sortedBp_map_iff]
      exact hs
  | dis a =>
      rw [sortedBp_map_iff]
      show ((w.sw_b_HEAD.map _).map SwBp.addr).Pairwise (· < ·)
      rw [toggle_map_addr]
      rw [← sortedBp_map_iff]
      exact hs

/-- Claim C5: under every sequence of register_breakpoint,
unregister_breakpoint, enable_breakpoint and disable_breakpoint
operations, the software-breakpoint list stays sorted strictly ascending
by address, and in particular its addresses are pairwise distinct. -/
theorem sw_bp_list_sorted (w : World) (ops : List BpOp)
    (hs : SortedBpList w.sw_b_HEAD) :
    SortedBpList ((ops.foldl applyBpOp w).sw_b_HEAD) ∧
      (((ops.foldl applyBpOp w).sw_b_HEAD).map SwBp.addr).Nodup := by
  have main : ∀ (ops2 : List BpOp) (w2 : World), SortedBpList w2.sw_b_HEAD →
      SortedBpList ((ops2.foldl applyBpOp w2).sw_b_HEAD) := by
    intro ops2
    induction ops2 with
    | nil => intro w2 h; exact h
    | cons op rest ih =>
        intro w2 h
        rw [List.foldl_cons]
        exact ih _ (sortedBp_applyBpOp w2 op h)
  have hsorted := main ops w hs
  refine ⟨hsorted, ?_⟩
  rw [sortedBp_map_iff] at hsorted
  exact hsorted.imp (fun h => Nat.ne_of_lt h)

/-- Concrete world for the C5 witness: two breakpoints already registered
in ascending order. -/
def cw5 : World :=
  { baseWorld with sw_b_HEAD :=
      [ { addr := 16, instruction := 1, patched_instruction := 2, enabled := true },
        { addr := 32, instruction := 3, patched_instruction := 4, enabled := false } ] }

/-- Witness for C5: a concrete operation sequence (register at 24, disable
32, unregister 16, re-register 32) keeps the concrete list sorted and its
addresses distinct. -/
theorem sw_bp_list_sorted_witness :
    SortedBpList ((([BpOp.reg 1 24, BpOp.dis 32, BpOp.unreg 16,
        BpOp.reg 1 32].foldl applyBpOp cw5)).sw_b_HEAD) ∧
      (((([BpOp.reg 1 24, BpOp.dis 32, BpOp.unreg 16,
        BpOp.reg 1 32].foldl applyBpOp cw5)).sw_b_HEAD).map SwBp.addr).Nodup :=
  sw_bp_list_sorted cw5 _ (by unfold SortedBpList; decide)

/-- Claim C6: register_thread on an already-registered tid returns the
cached register block of the existing entry and leaves the world
untouched (so no entry is allocated and, the event log being unchanged,
no register read is issued to the kernel). -/
theorem register_thread_idempotent (w : World) (tid : Nat) (t : Thread)
    (h : get_thread w.t_HEAD tid = some t) :
    register_thread w tid = (w, t.regs) := by
  rw [register_thread, h]

/-- Concrete world for the C6 witness: one live thread with tid 5. -/
def cw6 : World :=
  { baseWorld with t_HEAD :=
      [ { tid := 5, regs := { ip := 7, rest := 9 }, signal_to_forward := 3 } ] }

/-- Witness for C6: re-registering tid 5 returns the cached block and the
unchanged world. -/
theorem register_thread_idempotent_witness :
    register_thread cw6 5 = (cw6, { ip := 7, rest := 9 }) :=
  register_thread_idempotent cw6 5
    { tid := 5, regs := { ip := 7, rest := 9 }, signal_to_forward := 3 } (by decide)

/-- Claim C7: unregister_breakpoint only unlinks the matching list entry;
tracee memory is unchanged at every address, no kernel request is issued
(the log is unchanged), the thread table is untouched, and the resulting
breakpoint list is the old one with the first matching entry removed (in
particular a sublist of it). -/
theorem unregister_breakpoint_frame (w : World) (address a : Word) :
    (unregister_breakpoint w address).mem a = w.mem a ∧
    (unregister_breakpoint w address).log = w.log ∧
    (unregister_breakpoint w address).t_HEAD = w.t_HEAD ∧
    (unregister_breakpoint w address).sw_b_HEAD = removeFirstBp w.sw_b_HEAD address ∧
    List.Sublist (unregister_breakpoint w address).sw_b_HEAD w.sw_b_HEAD :=
  ⟨rfl, rfl, rfl, rfl, removeFirstBp_sublist w.sw_b_HEAD address⟩

/-- Claim C10: register_breakpoint at an address that already has an entry
re-reads and re-patches the word in tracee memory, but on the list only
runs enableFirst: every entry keeps its addr, stored instruction and
patched_instruction fields. -/
theorem register_breakpoint_existing (w : World) (pid : Nat) (address : Word)
    (h : (w.sw_b_HEAD.any fun b => b.addr == address) = true) :
    (register_breakpoint w pid address).sw_b_HEAD = enableFirst w.sw_b_HEAD address ∧
    ((register_breakpoint w pid address).sw_b_HEAD.map
        (fun b => (b.addr, b.instruction, b.patched_instruction)) =
      w.sw_b_HEAD.map (fun b => (b.addr, b.instruction, b.patched_instruction))) ∧
    (register_breakpoint w pid address).mem address = INSTALL_BREAKPOINT (w.mem address) := by
  rw [register_breakpoint]
  simp only [peekdata, pokedata]
  rw [if_pos h]
  refine ⟨rfl, ?_, by simp⟩
  exact enableFirst_fields w.sw_b_HEAD address

/-- Concrete world for the C10 witness: one disabled breakpoint entry at
address 8 whose stored fields differ from what a fresh registration would
compute. -/
def cw10 : World :=
  { baseWorld with
      sw_b_HEAD := [ { addr := 8, instruction := 5, patched_instruction := 300, enabled := false } ],
      mem := fun _ => 0x90 }

/-- Witness for C10: re-registering address 8 keeps the stored fields
(5 and 300) even though memory is re-patched from the current word 0x90. -/
theorem register_breakpoint_existing_witness :
    ((register_breakpoint cw10 1 8).sw_b_HEAD.map
        (fun b => (b.addr, b.instruction, b.patched_instruction)) =
      cw10.sw_b_HEAD.map (fun b => (b.addr, b.instruction, b.patched_instruction))) ∧
    (register_breakpoint cw10 1 8).mem 8 = INSTALL_BREAKPOINT 0x90 :=
  ⟨(register_breakpoint_existing cw10 1 8 (by decide)).2.1,
   (register_breakpoint_existing cw10 1 8 (by decide)).2.2⟩

/-- Concrete world for C2: thread 7 has all four debug-register slots
occupied (addresses 11..14) and four hardware breakpoints registered. -/
def cw2 : World :=
  { baseWorld with
      hw_b_HEAD :=
        [ { addr := 11, tid := 7, enabled := true, ty0 := 'x', ty1 := 'x', len := 1 },
          { addr := 12, tid := 7, enabled := true, ty0 := 'x', ty1 := 'x', len := 1 },
          { addr := 13, tid := 7, enabled := true, ty0 := 'x', ty1 := 'x', len := 1 },
          { addr := 14, tid := 7, enabled := true, ty0 := 'x', ty1 := 'x', len := 1 } ],
      dregs := fun _ => { dr0 := 11, dr1 := 12, dr2 := 13, dr3 := 14, dr7 := 85 } }

/-- Counterexample to C2 as stated: in cw2 all four slots of thread 7 are
occupied and (5, 7) is a new pair, yet registering it changes the
hardware-breakpoint list (the entry is prepended before the slot scan
rejects the installation), so the rejection is not free of state change. -/
theorem register_hw_fifth_counterexample :
    (cw2.dregs 7).dr0 ≠ 0 ∧ (cw2.dregs 7).dr1 ≠ 0 ∧ (cw2.dregs 7).dr2 ≠ 0 ∧
      (cw2.dregs 7).dr3 ≠ 0 ∧
    (cw2.hw_b_HEAD.any fun b => b.addr == 5 && b.tid == 7) = false ∧
    (register_hw_breakpoint cw2 7 5 'x' 'x' 1).hw_b_HEAD ≠ cw2.hw_b_HEAD :=
  ⟨by decide, by decide, by decide, by decide, by decide, by decide⟩

/-- Claim C2 (amended): with all four debug-register slots of the thread
occupied, registering a fifth simultaneous hardware breakpoint (a new
(addr, tid) pair) writes no debug register of any thread and leaves
tracee memory untouched, but the new entry is nevertheless prepended,
enabled, to the hardware-breakpoint list. -/
theorem register_hw_fifth_rejected (w : World) (tid : Nat) (address : Word)
    (t0 t1 : Char) (len : Nat)
    (h0 : (w.dregs tid).dr0 ≠ 0) (h1 : (w.dregs tid).dr1 ≠ 0)
    (h2 : (w.dregs tid).dr2 ≠ 0) (h3 : (w.dregs tid).dr3 ≠ 0)
    (hnew : (w.hw_b_HEAD.any fun b => b.addr == address && b.tid == tid) = false) :
    (register_hw_breakpoint w tid address t0 t1 len).dregs = w.dregs ∧
    (register_hw_breakpoint w tid address t0 t1 len).mem = w.mem ∧
    (register_hw_breakpoint w tid address t0 t1 len).hw_b_HEAD =
      { addr := address, tid := tid, enabled := true,
        ty0 := t0, ty1 := t1, len := len } :: w.hw_b_HEAD := by
  rw [register_hw_breakpoint]
  rw [hnew]
  simp only [Bool.false_eq_true, if_false]
  rw [install_hardware_breakpoint]
  simp only [freeSlotIdx]
  rw [if_neg h0, if_neg h1, if_neg h2, if_neg h3]
  exact ⟨rfl, rfl, rfl⟩

/-- Witness for the amended C2 at the concrete world cw2. -/
theorem register_hw_fifth_rejected_witness :
    (register_hw_breakpoint cw2 7 5 'x' 'x' 1).dregs = cw2.dregs ∧
    (register_hw_breakpoint cw2 7 5 'x' 'x' 1).mem = cw2.mem ∧
    (register_hw_breakpoint cw2 7 5 'x' 'x' 1).hw_b_HEAD =
      { addr := 5, tid := 7, enabled := true, ty0 := 'x', ty1 := 'x', len := 1 } :: cw2.hw_b_HEAD :=
  register_hw_fifth_rejected cw2 7 5 'x' 'x' 1
    (by decide) (by decide) (by decide) (by decide) (by decide)

/-- Claim C9: when the initial blocking wait of wait_all_and_update_regs
reports failure (-1), the function returns the null list and performs none
of its later steps: memory, thread caches and breakpoint list are
untouched and the only kernel request issued is the single wait (so no
SIGSTOP is sent, no register read happens, and no breakpoint word is
written back). -/
theorem wait_all_first_wait_fails (w : World) (pid : Nat) (fuel : Nat)
    (h : (w.waitResults w.waitIdx).1 = -1) :
    (wait_all_and_update_regs w pid fuel).2 = none ∧
    (wait_all_and_update_regs w pid fuel).1.mem = w.mem ∧
    (wait_all_and_update_regs w pid fuel).1.t_HEAD = w.t_HEAD ∧
    (wait_all_and_update_regs w pid fuel).1.sw_b_HEAD = w.sw_b_HEAD ∧
    (wait_all_and_update_regs w pid fuel).1.log = w.log ++ [Event.waitE] := by
  rw [wait_all_and_update_regs]
  simp only [doWait]
  rw [if_pos h]
  exact ⟨rfl, rfl, rfl, rfl, rfl⟩

/-- Concrete world for the C9 witness: one live thread, one enabled
breakpoint, and a wait oracle whose first answer is the failure -1. -/
def cw9 : World :=
  { baseWorld with
      t_HEAD := [ { tid := 1, regs := { ip := 100, rest := 0 }, signal_to_forward := 2 } ],
      sw_b_HEAD := [ { addr := 64, instruction := 7, patched_instruction := 8, enabled := true } ],
      waitResults := fun _ => (-1, 0) }

/-- Witness for C9 at the concrete world cw9. -/
theorem wait_all_first_wait_fails_witness :
    (wait_all_and_update_regs cw9 1 5).2 = none ∧
    (wait_all_and_update_regs cw9 1 5).1.mem = cw9.mem ∧
    (wait_all_and_update_regs cw9 1 5).1.t_HEAD = cw9.t_HEAD ∧
    (wait_all_and_update_regs cw9 1 5).1.sw_b_HEAD = cw9.sw_b_HEAD ∧
    (wait_all_and_update_regs cw9 1 5).1.log = cw9.log ++ [Event.waitE] :=
  wait_all_first_wait_fails cw9 1 5 (by decide)

lemma numSteps_append (l1 l2 : List Event) :
    numSteps (l1 ++ l2) = numSteps l1 + numSteps l2 := by
  unfold numSteps
  exact List.countP_append _ _ _

lemma numSteps_setregs_map (ts : List Thread) :
    numSteps (ts.map fun t => Event.setregsE t.tid) = 0 := by
  unfold numSteps
  rw [List.countP_eq_zero]
  intro e he
  rcases List.mem_map.1 he with ⟨t, _, rfl⟩
  simp

/-- Claim C8: step_until with max_steps = 0 on a registered thread returns
success (0) after the flush and the thread lookup, issuing no single-step:
in particular this covers both the case where the cached instruction
pointer already equals the target address and the case where it does not. -/
theorem step_until_zero_steps (w : World) (tid : Nat) (addr : Word) (fuel : Nat)
    (ht : (get_thread w.t_HEAD tid).isSome = true)
    (hf : 0 < fuel) :
    (step_until w tid addr 0 fuel).2 = some 0 ∧
    numSteps (step_until w tid addr 0 fuel).1.log = numSteps w.log := by
  obtain ⟨t, hfind⟩ := Option.isSome_iff_exists.1 ht
  cases fuel with
  | zero => exact absurd hf (by simp)
  | succ f =>
      rw [step_until]
      rw [show get_thread (flushRegs w).t_HEAD tid = some t from hfind]
      rw [suLoop]
      rw [if_neg (by decide : ¬((0 : Int) = -1 ∨ (0 : Int) < 0))]
      refine ⟨rfl, ?_⟩
      show numSteps (flushRegs w).log = numSteps w.log
      rw [flushRegs]
      show numSteps (w.log ++ _) = numSteps w.log
      rw [numSteps_append, numSteps_setregs_map, Nat.add_zero]

/-- Concrete world for the C8 witness: one live thread with tid 1 whose
instruction pointer does not equal the target address. -/
def cw8 : World :=
  { baseWorld with
      t_HEAD := [ { tid := 1, regs := { ip := 100, rest := 0 }, signal_to_forward := 0 } ] }

/-- Witness for C8 at the concrete world cw8 (target 999, bound 0). -/
theorem step_until_zero_steps_witness :
    (step_until cw8 1 999 0 5).2 = some 0 ∧
    numSteps (step_until cw8 1 999 0 5).1.log = numSteps cw8.log :=
  step_until_zero_steps cw8 1 999 5 (by decide) (by decide)

lemma pokeEnabledList_sw_b (f : SwBp → Word) (l : List SwBp) (w : World) :
    (pokeEnabledList f l w).sw_b_HEAD = w.sw_b_HEAD := by
  induction l generalizing w with
  | nil => rfl
  | cons b bs ih =>
      rw [pokeEnabledList, ih]
      split <;> rfl

lemma pokeEnabledList_t_HEAD (f : SwBp → Word) (l : List SwBp) (w : World) :
    (pokeEnabledList f l w).t_HEAD = w.t_HEAD := by
  induction l generalizing w with
  | nil => rfl
  | cons b bs ih =>
      rw [pokeEnabledList, ih]
      split <;> rfl

lemma pokeEnabledList_mem_miss (f : SwBp → Word) (l : List SwBp) (w : World)
    (a : Word) (ha : ∀ b ∈ l, b.addr ≠ a) :
    (pokeEnabledList f l w).mem a = w.mem a := by
  induction l generalizing w with
  | nil => rfl
  | cons b bs ih =>
      rw [pokeEnabledList]
      rw [ih _ (fun x hx => ha x (List.mem_cons_of_mem b hx))]
      split
      · show (if a = b.addr then f b else w.mem a) = w.mem a
        exact if_neg (fun h => (ha b (List.mem_cons_self b bs)) h.symm)
      · rfl

lemma pokeEnabledList_mem_enabled (f : SwBp → Word) (l : List SwBp) (w : World)
    (b : SwBp) (hnd : (l.map SwBp.addr).Nodup) (hb : b ∈ l) (he : b.enabled = true) :
    (pokeEnabledList f l w).mem b.addr = f b := by
  induction l generalizing w with
  | nil => cases hb
  | cons c cs ih =>
      rw [List.map_cons, List.nodup_cons] at hnd
      obtain ⟨hcn, hnd2⟩ := hnd
      rw [pokeEnabledList]
      rcases List.mem_cons.1 hb with rfl | hbs
      · have hnotin : ∀ x ∈ cs, x.addr ≠ b.addr := by
          intro x hx hxa
          exact hcn (List.mem_map.2 ⟨x, hx, hxa⟩)
        rw [pokeEnabledList_mem_miss f cs _ b.addr hnotin]
        rw [if_pos he]
        show (if b.addr = b.addr then f b else w.mem b.addr) = f b
        exact if_pos rfl
      · exact ih _ hnd2 hbs

lemma stepOverSw_sw_b (ts : List Thread) (w : World) (st : Nat) :
    (stepOverSw w ts st).1.sw_b_HEAD = w.sw_b_HEAD := by
  induction ts generalizing w st with
  | nil => rfl
  | cons t rest ih =>
      rw [stepOverSw]
      split
      · simp only [doStep, doWait]
        split
        · split
          · rw [ih]
          · rw [ih]
        · rfl
      · rw [ih]

lemma stepOverSw_t_HEAD (ts : List Thread) (w : World) (st : Nat) :
    (stepOverSw w ts st).1.t_HEAD = w.t_HEAD := by
  induction ts generalizing w st with
  | nil => rfl
  | cons t rest ih =>
      rw [stepOverSw]
      split
      · simp only [doStep, doWait]
        split
        · split
          · rw [ih]
          · rw [ih]
        · rfl
      · rw [ih]

/-- Claim C3: when cont_all_and_set_bps returns without error (result not
-1), the in-memory word at every enabled software breakpoint equals that
breakpoint's patched_instruction, and every live thread's
signal_to_forward equals 0. -/
theorem cont_all_patches_and_clears (w : World) (pid : Nat)
    (hnd : (w.sw_b_HEAD.map SwBp.addr).Nodup)
    (herr : (cont_all_and_set_bps w pid).2 ≠ -1) :
    (∀ b ∈ (cont_all_and_set_bps w pid).1.sw_b_HEAD, b.enabled = true →
        (cont_all_and_set_bps w pid).1.mem b.addr = b.patched_instruction) ∧
    (∀ t ∈ (cont_all_and_set_bps w pid).1.t_HEAD, t.signal_to_forward = 0) := by
  rcases hso : stepOverSw (flushRegs w) (flushRegs w).t_HEAD 0 with ⟨w1, st⟩
  have hw1sw : w1.sw_b_HEAD = w.sw_b_HEAD := by
    have h := stepOverSw_sw_b (flushRegs w).t_HEAD (flushRegs w) 0
    rw [hso] at h
    exact h
  cases st with
  | none =>
      exfalso
      apply herr
      rw [cont_all_and_set_bps, prepare_for_run, hso]
  | some s =>
      have hrepr : cont_all_and_set_bps w pid = (contAll (repatchSw w1), (s : Int)) := by
        rw [cont_all_and_set_bps, prepare_for_run, hso]
      rw [hrepr]
      constructor
      · intro b hb he
        have hb2 : b ∈ w1.sw_b_HEAD := by
          have hsw : (contAll (repatchSw w1)).sw_b_HEAD = w1.sw_b_HEAD := by
            show (repatchSw w1).sw_b_HEAD = w1.sw_b_HEAD
            rw [repatchSw]
            exact pokeEnabledList_sw_b _ _ _
          rw [hsw] at hb
          exact hb
        show (repatchSw w1).mem b.addr = b.patched_instruction
        rw [repatchSw]
        exact pokeEnabledList_mem_enabled _ w1.sw_b_HEAD w1 b
          (by rw [hw1sw]; exact hnd) hb2 he
      · intro t htm
        have : t ∈ (repatchSw w1).t_HEAD.map (fun t => { t with signal_to_forward := 0 }) := htm
        rcases List.mem_map.1 this with ⟨t0, _, rfl⟩
        rfl

/-- Concrete world for the C3 witness: one live thread carrying a pending
signal and one enabled breakpoint at address 64 with patched word 204. -/
def cw3 : World :=
  { baseWorld with
      t_HEAD := [ { tid := 1, regs := { ip := 100, rest := 0 }, signal_to_forward := 9 } ],
      sw_b_HEAD := [ { addr := 64, instruction := 144, patched_instruction := 204, enabled := true } ] }

/-- Witness for C3 at the concrete world cw3: after the call, memory at 64
holds the patched word 204. -/
theorem cont_all_patches_and_clears_witness :
    (cont_all_and_set_bps cw3 1).1.mem 64 = 204 :=
  (cont_all_patches_and_clears cw3 1 (by decide) (by decide)).1
    { addr := 64, instruction := 144, patched_instruction := 204, enabled := true }
    (by decide) rfl

lemma prepare_for_run_sw_b (w : World) (pid : Nat) :
    (prepare_for_run w pid).1.sw_b_HEAD = w.sw_b_HEAD := by
  rw [prepare_for_run]
  rcases hso : stepOverSw (flushRegs w) (flushRegs w).t_HEAD 0 with ⟨w1, st⟩
  have hw1 : w1.sw_b_HEAD = w.sw_b_HEAD := by
    have h := stepOverSw_sw_b (flushRegs w).t_HEAD (flushRegs w) 0
    rw [hso] at h
    exact h
  cases st with
  | none => exact hw1
  | some s =>
      show (repatchSw w1).sw_b_HEAD = w.sw_b_HEAD
      rw [repatchSw, pokeEnabledList_sw_b]
      exact hw1

lemma sfLoop_sw_b (fuel : Nat) (w : World) (tid : Nat) (nested : Int) :
    (sfLoop fuel w tid nested).1.sw_b_HEAD = w.sw_b_HEAD := by
  induction fuel generalizing w nested with
  | zero => rfl
  | succ f ih =>
      rw [sfLoop]
      simp only [doStep, doWait, doGetregs, peekdata]
      repeat' split
      all_goals first | rfl | rw [ih]

/-- Claim C4: whenever stepping_finish returns through its cleanup paths --
the nested-call counter reached zero and the final step was taken, or the
loop aborted on an unchanged instruction pointer or a trap opcode (both
are exactly the executions that return 0) -- the original instruction word
has been written back at the address of every enabled software breakpoint
before the return. -/
theorem stepping_finish_restores (w : World) (tid : Nat) (fuel : Nat)
    (hnd : (w.sw_b_HEAD.map SwBp.addr).Nodup)
    (h0 : (stepping_finish w tid fuel).2 = some 0) :
    ∀ b ∈ w.sw_b_HEAD, b.enabled = true →
      (stepping_finish w tid fuel).1.mem b.addr = b.instruction := by
  intro b hb he
  rcases hpr : prepare_for_run w tid with ⟨w1, st⟩
  have hw1 : w1.sw_b_HEAD = w.sw_b_HEAD := by
    have h := prepare_for_run_sw_b w tid
    rw [hpr] at h
    exact h
  cases hget : get_thread w1.t_HEAD tid with
  | none =>
      have hv : (stepping_finish w tid fuel).2 = some (-1) := by
        rw [stepping_finish, hpr]
        dsimp only
        rw [hget]
      rw [hv] at h0
      simp at h0
  | some t =>
      rcases hsf : sfLoop fuel w1 tid 1 with ⟨w2, ex⟩
      have hw2 : w2.sw_b_HEAD = w1.sw_b_HEAD := by
        have h := sfLoop_sw_b fuel w1 tid 1
        rw [hsf] at h
        exact h
      have hbw2 : b ∈ w2.sw_b_HEAD := by rw [hw2, hw1]; exact hb
      have hndw2 : (w2.sw_b_HEAD.map SwBp.addr).Nodup := by rw [hw2, hw1]; exact hnd
      cases ex with
      | stepErr =>
          have hv : (stepping_finish w tid fuel).2 = some (-1) := by
            rw [stepping_finish, hpr]
            dsimp only
            rw [hget]
            dsimp only
            rw [hsf]
          rw [hv] at h0
          simp at h0
      | fuelOut =>
          have hv : (stepping_finish w tid fuel).2 = none := by
            rw [stepping_finish, hpr]
            dsimp only
            rw [hget]
            dsimp only
            rw [hsf]
          rw [hv] at h0
          simp at h0
      | bpAbort =>
          have hv : (stepping_finish w tid fuel).1 = restoreSw w2 := by
            rw [stepping_finish, hpr]
            dsimp only
            rw [hget]
            dsimp only
            rw [hsf]
          rw [hv, restoreSw]
          exact pokeEnabledList_mem_enabled _ _ _ b hndw2 hbw2 he
      | callDone =>
          by_cases hok : (doStep w2 tid).2 = true
          · have hv : (stepping_finish w tid fuel).1 =
                restoreSw (if (doGetregs (doWait (doStep w2 tid).1).1 tid).2.1 = true
                  then { ((doGetregs (doWait (doStep w2 tid).1).1 tid).1) with
                         t_HEAD := updateFirstRegs
                           (doGetregs (doWait (doStep w2 tid).1).1 tid).1.t_HEAD tid
                           (doGetregs (doWait (doStep w2 tid).1).1 tid).2.2 }
                  else (doGetregs (doWait (doStep w2 tid).1).1 tid).1) := by
              rw [stepping_finish, hpr]
              dsimp only
              rw [hget]
              dsimp only
              rw [hsf]
              dsimp only
              rw [if_pos hok]
            rw [hv, restoreSw]
            refine pokeEnabledList_mem_enabled _ _ _ b ?_ ?_ he
            · split
              · show (w2.sw_b_HEAD.map SwBp.addr).Nodup
                exact hndw2
              · show (w2.sw_b_HEAD.map SwBp.addr).Nodup
                exact hndw2
            · split
              · show b ∈ w2.sw_b_HEAD
                exact hbw2
              · show b ∈ w2.sw_b_HEAD
                exact hbw2
          · have hv : (stepping_finish w tid fuel).2 = some (-1) := by
              rw [stepping_finish, hpr]
              dsimp only
              rw [hget]
              dsimp only
              rw [hsf]
              dsimp only
              rw [if_neg hok]
            rw [hv] at h0
            simp at h0

/-- Concrete world for the C4 witness: one live thread at ip 100, one
enabled breakpoint at 64 with original word 17, memory filled with the
return opcode 0xC3, and a register oracle that advances the instruction
pointer on each read. -/
def cw4 : World :=
  { baseWorld with
      t_HEAD := [ { tid := 1, regs := { ip := 100, rest := 0 }, signal_to_forward := 0 } ],
      sw_b_HEAD := [ { addr := 64, instruction := 17, patched_instruction := 301, enabled := true } ],
      mem := fun _ => 0xC3,
      regResults := fun n => { ip := 200 + n, rest := 0 } }

/-- Witness for C4 at the concrete world cw4: the run returns 0 and memory
at 64 again holds the original word 17. -/
theorem stepping_finish_restores_witness :
    (stepping_finish cw4 1 10).1.mem 64 = 17 :=
  stepping_finish_restores cw4 1 10 (by decide) (by decide)
    { addr := 64, instruction := 17, patched_instruction := 301, enabled := true }
    (by decide) rfl

lemma flushRegs_stepEvents (w : World) (tid : Nat) :
    Event.singleStepE tid ∈ (flushRegs w).log ↔ Event.singleStepE tid ∈ w.log := by
  rw [flushRegs]
  show Event.singleStepE tid ∈ w.log ++ _ ↔ _
  rw [List.mem_append]
  simp [List.mem_map]

lemma pokeEnabledList_stepEvents (f : SwBp → Word) (l : List SwBp) (w : World)
    (tid : Nat) :
    Event.singleStepE tid ∈ (pokeEnabledList f l w).log ↔
      Event.singleStepE tid ∈ w.log := by
  induction l generalizing w with
  | nil => exact Iff.rfl
  | cons b bs ih =>
      rw [pokeEnabledList, ih]
      split
      · show _ ∈ w.log ++ [Event.pokeDataE b.addr (f b)] ↔ _
        rw [List.mem_append]
        simp
      · exact Iff.rfl

lemma stepOverSw_ok (ts : List Thread) (w : World) (st : Nat)
    (hok : ∀ n, w.stepResults n = true) :
    (stepOverSw w ts st).2 ≠ none := by
  induction ts generalizing w st with
  | nil => simp [stepOverSw]
  | cons t rest ih =>
      rw [stepOverSw]
      split
      · dsimp only [doStep, doWait]
        rw [hok w.stepIdx, if_pos rfl]
        split
        · exact ih _ _ hok
        · exact ih _ _ hok
      · exact ih _ _ hok

lemma stepOverSw_stepEvents (ts : List Thread) (w : World) (st : Nat) (tid : Nat)
    (hok : ∀ n, w.stepResults n = true) :
    Event.singleStepE tid ∈ (stepOverSw w ts st).1.log ↔
      (Event.singleStepE tid ∈ w.log ∨
        ∃ t2, t2 ∈ ts ∧ tid = t2.tid ∧
          (w.sw_b_HEAD.any fun b => b.addr == INSTRUCTION_POINTER t2.regs) = true) := by
  induction ts generalizing w st with
  | nil => simp [stepOverSw]
  | cons t rest ih =>
      rw [stepOverSw]
      by_cases hhit : (w.sw_b_HEAD.any fun b => b.addr == INSTRUCTION_POINTER t.regs) = true
      · have hhit2 : ∃ x ∈ w.sw_b_HEAD, x.addr = INSTRUCTION_POINTER t.regs := by
          simpa using hhit
        have hP : (tid = t.tid ∧ ∃ x ∈ w.sw_b_HEAD, x.addr = INSTRUCTION_POINTER t.regs) ↔
            tid = t.tid := and_iff_left hhit2
        rw [if_pos hhit]
        dsimp only [doStep, doWait]
        rw [hok w.stepIdx, if_pos rfl]
        split
        · refine Iff.trans (ih _ _ hok) ?_
          simp [List.mem_append, hP]
          tauto
        · refine Iff.trans (ih _ _ hok) ?_
          simp [List.mem_append, hP]
          tauto
      · have hhit2 : ¬ ∃ x ∈ w.sw_b_HEAD, x.addr = INSTRUCTION_POINTER t.regs := by
          simpa using hhit
        rw [if_neg hhit]
        refine Iff.trans (ih _ _ hok) ?_
        simp [hhit2]

/-- Claim C1 (amended): prepare_for_run issues a single-step (plus wait,
and one extra step-and-wait when the first wait reports the literal
SIGSTOP status 4991) for a live thread exactly when that thread's cached
instruction pointer equals the address of some software-breakpoint entry,
whether that entry is enabled or disabled.  Stated over oracles on which
every single-step request succeeds, a thread table with pairwise distinct
tids, and an empty starting event log. -/
theorem prepare_steps_iff (w : World) (pid : Nat) (t : Thread)
    (ht : t ∈ w.t_HEAD)
    (hnd : (w.t_HEAD.map Thread.tid).Nodup)
    (hok : ∀ n, w.stepResults n = true)
    (hlog : w.log = []) :
    Event.singleStepE t.tid ∈ (prepare_for_run w pid).1.log ↔
      ∃ b ∈ w.sw_b_HEAD, b.addr = t.regs.ip := by
  rcases hso : stepOverSw (flushRegs w) (flushRegs w).t_HEAD 0 with ⟨w1, st⟩
  have hx := stepOverSw_stepEvents (flushRegs w).t_HEAD (flushRegs w) 0 t.tid hok
  rw [hso] at hx
  cases st with
  | none =>
      exfalso
      have hnn := stepOverSw_ok (flushRegs w).t_HEAD (flushRegs w) 0 hok
      rw [hso] at hnn
      exact hnn rfl
  | some s =>
      have hpr : (prepare_for_run w pid).1 = repatchSw w1 := by
        rw [prepare_for_run, hso]
      rw [hpr, repatchSw, pokeEnabledList_stepEvents, hx, flushRegs_stepEvents, hlog]
      simp only [List.not_mem_nil, false_or]
      constructor
      · rintro ⟨t2, ht2, heq, hany⟩
        have ht2w : t2 ∈ w.t_HEAD := ht2
        have hteq : t = t2 := List.inj_on_of_nodup_map hnd ht ht2w heq
        subst hteq
        have hany2 : (w.sw_b_HEAD.any fun b => b.addr == INSTRUCTION_POINTER t.regs) = true :=
          hany
        simpa [INSTRUCTION_POINTER] using hany2
      · rintro ⟨b, hbm, hba⟩
        refine ⟨t, ht, rfl, ?_⟩
        show (w.sw_b_HEAD.any fun b2 => b2.addr == INSTRUCTION_POINTER t.regs) = true
        rw [List.any_eq_true]
        exact ⟨b, hbm, by simp [INSTRUCTION_POINTER, hba]⟩

/-- Concrete world for the C1 counterexample: thread 1 stopped at address
4096, where the only breakpoint entry is present but disabled. -/
def cw1 : World :=
  { baseWorld with
      t_HEAD := [ { tid := 1, regs := { ip := 4096, rest := 0 }, signal_to_forward := 0 } ],
      sw_b_HEAD :=
        [ { addr := 4096, instruction := 144, patched_instruction := 204, enabled := false } ] }

/-- Counterexample to C1 as stated: in cw1 the only breakpoint entry at
thread 1's cached instruction pointer is disabled, yet prepare_for_run
issues a single-step for thread 1 -- the step-over scan compares only
addresses and ignores the enabled flag. -/
theorem prepare_steps_disabled_counterexample :
    cw1.t_HEAD = [ { tid := 1, regs := { ip := 4096, rest := 0 }, signal_to_forward := 0 } ] ∧
    cw1.sw_b_HEAD =
      [ { addr := 4096, instruction := 144, patched_instruction := 204, enabled := false } ] ∧
    Event.singleStepE 1 ∈ (prepare_for_run cw1 1).1.log :=
  ⟨rfl, rfl, by decide⟩

/-- Concrete world for the C1 witness: thread 2 sits on an enabled
breakpoint at 500; thread 3 does not sit on any breakpoint address. -/
def cw1b : World :=
  { baseWorld with
      t_HEAD := [ { tid := 2, regs := { ip := 500, rest := 0 }, signal_to_forward := 0 },
                  { tid := 3, regs := { ip := 600, rest := 0 }, signal_to_forward := 0 } ],
      sw_b_HEAD := [ { addr := 500, instruction := 7, patched_instruction := 9, enabled := true } ] }

/-- Witness for the amended C1 at the concrete world cw1b: thread 2, whose
instruction pointer matches the breakpoint entry at 500, is stepped. -/
theorem prepare_steps_iff_witness :
    Event.singleStepE 2 ∈ (prepare_for_run cw1b 1).1.log :=
  (prepare_steps_iff cw1b 1
      { tid := 2, regs := { ip := 500, rest := 0 }, signal_to_forward := 0 }
      (by decide) (by decide) (fun _ => rfl) rfl).mpr
    ⟨{ addr := 500, instruction := 7, patched_instruction := 9, enabled := true },
      by decide, rfl⟩
